import Mathlib

/-!
Shallow embedding of the tic-tac-toe repository:
  * `src/src/App.tsx` — board engine: `checkWinner`, `minimax`, `getBestMove`
  * `src/server.ts`  — room-relay server: `join_room`, `make_move`, `reset_game`

Boards are 9-cell arrays (row-major 3×3), each cell `null | 'X' | 'O'`,
modelled as `List Player` with `Player := Option Symb`.
-/

/-- A player symbol, `'X'` or `'O'`. -/
inductive Symb where
  | X : Symb
  | O : Symb
deriving DecidableEq, Repr, Fintype, BEq

/-- A board cell: `null` (empty) or a symbol, as in the TS `Player` type. -/
abbrev Player := Option Symb

/-- `WINNING_COMBINATIONS` from App.tsx: 3 rows, 3 columns, 2 diagonals. -/
def WINNING_COMBINATIONS : List (List Nat) :=
  [[0, 1, 2], [3, 4, 5], [6, 7, 8],
   [0, 3, 6], [1, 4, 7], [2, 5, 8],
   [0, 4, 8], [2, 4, 6]]

/-- Result tag of `checkWinner`: a winning symbol or `'Draw'`. -/
inductive WinnerTag where
  | sym (s : Symb) : WinnerTag
  | draw : WinnerTag
deriving DecidableEq, Repr, BEq

/-- The `{winner, line}` object returned by `checkWinner`. -/
structure WinInfo where
  winner : WinnerTag
  line : Option (List Nat)
deriving DecidableEq, Repr, BEq

/-- One step of the `for (const combo of WINNING_COMBINATIONS)` loop in
`checkWinner`: `squares[a] && squares[a] === squares[b] && squares[a] === squares[c]`
(`squares[i]` is `undefined` out of range, hence `List.get?`). -/
def comboWinner (squares : List Player) : List Nat → Option Symb
  | [a, b, c] =>
    match squares.get? a with
    | some (some s) =>
        if squares.get? b = some (some s) ∧ squares.get? c = some (some s) then
          some s
        else none
    | _ => none
  | _ => none

/-- The combo scan of `checkWinner`: first matching combo wins. -/
def scanCombos (squares : List Player) : List (List Nat) → Option WinInfo
  | [] => none
  | combo :: rest =>
    match comboWinner squares combo with
    | some s => some ⟨WinnerTag.sym s, some combo⟩
    | none => scanCombos squares rest

/-- `checkWinner` from App.tsx: scan the 8 combos for a winner; if none and
`squares.every(s => s !== null)`, report a draw; else `null`. -/
def checkWinner (squares : List Player) : Option WinInfo :=
  match scanCombos squares WINNING_COMBINATIONS with
  | some w => some w
  | none =>
    if squares.all (fun s => s ≠ none) then
      some ⟨WinnerTag.draw, none⟩
    else none

/-- `-Infinity` stand-in: every real minimax score lies in `[-10, 10]`,
so any value `< -10` behaves identically to `-Infinity` in the comparisons. -/
def NEG_INF : Int := -1000

/-- `Infinity` stand-in, same remark. -/
def POS_INF : Int := 1000

/-- The cell indices `0..8` iterated by the `for (let i = 0; i < 9; i++)` loops. -/
def cellIndices : List Nat := [0, 1, 2, 3, 4, 5, 6, 7, 8]

/-- `minimax` from App.tsx.  `fuel` bounds the recursion depth (the TS
recursion terminates because each call fills one empty cell; any
`fuel ≥` number of empty cells gives the TS behaviour).  An in-range empty
cell is `squares.get? i = some none` (`!squares[i]`); the mutation
`squares[i] = s` followed by the recursive call and restore is
`squares.set i (some s)`. -/
def minimax : Nat → List Player → Int → Bool → Symb → Int
  | fuel, squares, depth, isMaximizing, aiSymbol =>
    let opponentSymbol : Symb := if aiSymbol = Symb.X then Symb.O else Symb.X
    match checkWinner squares with
    | some r =>
      if r.winner = WinnerTag.sym aiSymbol then 10 - depth
      else if r.winner = WinnerTag.sym opponentSymbol then depth - 10
      else 0
    | none =>
      match fuel with
      | 0 => 0
      | fuel' + 1 =>
        if isMaximizing then
          cellIndices.foldl
            (fun bestScore i =>
              if squares.get? i = some none then
                max (minimax fuel' (squares.set i (some aiSymbol)) (depth + 1) false aiSymbol)
                  bestScore
              else bestScore)
            NEG_INF
        else
          cellIndices.foldl
            (fun bestScore i =>
              if squares.get? i = some none then
                min (minimax fuel' (squares.set i (some opponentSymbol)) (depth + 1) true aiSymbol)
                  bestScore
              else bestScore)
            POS_INF

/-- `getBestMove` from App.tsx: try every empty cell, score it with
`minimax(…, 0, false, aiSymbol)`, keep the first strict improvement.
Returns `-1` on a full board (hence `Int`). -/
def getBestMove (squares : List Player) (aiSymbol : Symb) : Int :=
  (cellIndices.foldl
    (fun (acc : Int × Int) i =>
      if squares.get? i = some none then
        let score := minimax 9 (squares.set i (some aiSymbol)) 0 false aiSymbol
        if score > acc.1 then (score, (i : Int)) else acc
      else acc)
    (NEG_INF, -1)).2

/-- The all-empty board `Array(9).fill(null)`. -/
def emptyBoard : List Player := List.replicate 9 none

/-! ## Server model (`src/server.ts`)

The socket.io server keeps `rooms : Map<roomCode, {players, board, turn}>`
plus socket.io's own room membership (`socket.join` / `io.to(code).emit`).
Connections are `SocketId`s; handlers are pure functions
`ServerState → message → ServerState × List Emit`, where an `Emit` records
a payload and the concrete recipient list resolved at emission time
(unicast `socket.emit` vs broadcast `io.to(roomCode).emit`). -/

/-- A connection identifier (`socket.id`). -/
abbrev SocketId := Nat

/-- A room code (the `Map` key). -/
abbrev RoomCode := String

/-- A room record: `{ players, board, turn }`. -/
structure Room where
  players : List SocketId
  board : List Player
  turn : Symb
deriving DecidableEq, Repr

/-- The server's mutable state: the `rooms` map (as an association list in
insertion order) and socket.io's room membership relation (which sockets
joined which broadcast group). -/
structure ServerState where
  rooms : List (RoomCode × Room)
  subs : List (SocketId × RoomCode)
deriving DecidableEq, Repr

/-- The empty initial state of a freshly started server. -/
def initialState : ServerState := ⟨[], []⟩

/-- `rooms.get(code)` / `rooms.has(code)`. -/
def findRoom : List (RoomCode × Room) → RoomCode → Option Room
  | [], _ => none
  | (c, r) :: rest, code => if c = code then some r else findRoom rest code

/-- `rooms.set(code, room)`: overwrite an existing binding or append. -/
def setRoom : List (RoomCode × Room) → RoomCode → Room → List (RoomCode × Room)
  | [], code, room => [(code, room)]
  | (c, r) :: rest, code, room =>
    if c = code then (code, room) :: rest else (c, r) :: setRoom rest code room

/-- `socket.join(roomCode)`: add the socket to the room's broadcast group
(idempotent, as in socket.io). -/
def joinSub (subs : List (SocketId × RoomCode)) (s : SocketId) (code : RoomCode) :
    List (SocketId × RoomCode) :=
  if (s, code) ∈ subs then subs else (s, code) :: subs

/-- The members of a broadcast group: every socket that has joined `code`. -/
def subscribers (subs : List (SocketId × RoomCode)) (code : RoomCode) : List SocketId :=
  (subs.filter (fun p => p.2 = code)).map (fun p => p.1)

/-- A server→client payload. -/
inductive Payload where
  | player_assignment (s : Symb) : Payload
  | game_ready (board : List Player) (turn : Symb) : Payload
  | move_made (board : List Player) (turn : Symb) : Payload
  | game_reset (board : List Player) (turn : Symb) : Payload
  | error_msg (message : String) : Payload
deriving DecidableEq, Repr

/-- Where a message was emitted: `socket.emit` goes to one socket,
`io.to(roomCode).emit` goes to a room's broadcast group. -/
inductive EmitChannel where
  | direct (s : SocketId) : EmitChannel
  | room (code : RoomCode) : EmitChannel
deriving DecidableEq, Repr

/-- One emitted message: its channel, the concrete recipients resolved at
emission time (socket.io delivers a room broadcast to the sockets that are
members at that moment), and the payload. -/
structure Emit where
  channel : EmitChannel
  dest : List SocketId
  payload : Payload
deriving DecidableEq, Repr

/-- A client→server message, tagged with the sending connection. -/
inductive ClientMsg where
  | join_room (sender : SocketId) (roomCode : RoomCode) : ClientMsg
  | make_move (sender : SocketId) (roomCode : RoomCode) (index : Int) (symbol : Symb) : ClientMsg
  | reset_game (sender : SocketId) (roomCode : RoomCode) : ClientMsg
deriving DecidableEq, Repr

/-- `board[index]` for a JS array: `undefined` (`none`) when `index` is
negative or past the end, otherwise `some` of the stored cell. -/
def jsIndex (board : List Player) (index : Int) : Option Player :=
  match index with
  | Int.ofNat i => board.get? i
  | Int.negSucc _ => none

/-- The `make_move` guard `room.board[index] === null && room.turn === symbol`. -/
def moveAccepted (room : Room) (index : Int) (symbol : Symb) : Prop :=
  jsIndex room.board index = some none ∧ room.turn = symbol

instance (room : Room) (index : Int) (symbol : Symb) :
    Decidable (moveAccepted room index symbol) := by
  unfold moveAccepted; infer_instance

/-- The `io.on("connection", …)` message handlers of server.ts, one step:
returns the new state and the emitted messages in order. -/
def handleMsg (st : ServerState) : ClientMsg → ServerState × List Emit
  | ClientMsg.join_room sender code =>
    let subs' := joinSub st.subs sender code
    match findRoom st.rooms code with
    | none =>
      let room : Room := ⟨[sender], List.replicate 9 none, Symb.X⟩
      (⟨setRoom st.rooms code room, subs'⟩,
       [⟨EmitChannel.direct sender, [sender], Payload.player_assignment Symb.X⟩])
    | some room =>
      if room.players.length < 2 then
        let room' : Room := ⟨room.players ++ [sender], room.board, room.turn⟩
        (⟨setRoom st.rooms code room', subs'⟩,
         [⟨EmitChannel.direct sender, [sender], Payload.player_assignment Symb.O⟩,
          ⟨EmitChannel.room code, subscribers subs' code,
           Payload.game_ready room'.board room'.turn⟩])
      else
        (⟨st.rooms, subs'⟩,
         [⟨EmitChannel.direct sender, [sender], Payload.error_msg "Room is full"⟩])
  | ClientMsg.make_move _sender code index symbol =>
    match findRoom st.rooms code with
    | none => (st, [])
    | some room =>
      if moveAccepted room index symbol then
        let board' := room.board.set index.toNat (some symbol)
        let turn' : Symb := if symbol = Symb.X then Symb.O else Symb.X
        (⟨setRoom st.rooms code ⟨room.players, board', turn'⟩, st.subs⟩,
         [⟨EmitChannel.room code, subscribers st.subs code, Payload.move_made board' turn'⟩])
      else (st, [])
  | ClientMsg.reset_game _sender code =>
    match findRoom st.rooms code with
    | none => (st, [])
    | some room =>
      let board' : List Player := List.replicate 9 none
      (⟨setRoom st.rooms code ⟨room.players, board', Symb.X⟩, st.subs⟩,
       [⟨EmitChannel.room code, subscribers st.subs code, Payload.game_reset board' Symb.X⟩])

/-- Run the server from a given state over a message sequence, collecting
all emitted messages in order. -/
def runFrom (st : ServerState) : List ClientMsg → ServerState × List Emit
  | [] => (st, [])
  | m :: ms =>
    let (st', evs) := handleMsg st m
    let (st'', evs') := runFrom st' ms
    (st'', evs ++ evs')

/-- Run the server from the initial empty state. -/
def execServer (msgs : List ClientMsg) : ServerState × List Emit :=
  runFrom initialState msgs


/-! ## Destructured (unrolled) board-engine functions

The list-based functions above mirror App.tsx; for computation inside
proofs each also gets an equivalent on 9 destructured cells (no list
traversals), proved to agree with the original.  `selfPlay` is the C6
self-play driver. -/

/-- `comboWinner` after the in-range `get?`s have been reduced: the residual
computation on the three cell values. -/
def comboU (x y z : Player) : Option Symb :=
  match x with
  | some s =>
      if some y = some (some s) ∧ some z = some (some s) then some s
      else none
  | none => none

def scanU (a0 a1 a2 a3 a4 a5 a6 a7 a8 : Player) : Option WinInfo :=
  match comboU a0 a1 a2 with
  | some s => some ⟨WinnerTag.sym s, some [0, 1, 2]⟩
  | none =>
    match comboU a3 a4 a5 with
    | some s => some ⟨WinnerTag.sym s, some [3, 4, 5]⟩
    | none =>
      match comboU a6 a7 a8 with
      | some s => some ⟨WinnerTag.sym s, some [6, 7, 8]⟩
      | none =>
        match comboU a0 a3 a6 with
        | some s => some ⟨WinnerTag.sym s, some [0, 3, 6]⟩
        | none =>
          match comboU a1 a4 a7 with
          | some s => some ⟨WinnerTag.sym s, some [1, 4, 7]⟩
          | none =>
            match comboU a2 a5 a8 with
            | some s => some ⟨WinnerTag.sym s, some [2, 5, 8]⟩
            | none =>
              match comboU a0 a4 a8 with
              | some s => some ⟨WinnerTag.sym s, some [0, 4, 8]⟩
              | none =>
                match comboU a2 a4 a6 with
                | some s => some ⟨WinnerTag.sym s, some [2, 4, 6]⟩
                | none =>
                  none

def checkWinnerU (a0 a1 a2 a3 a4 a5 a6 a7 a8 : Player) : Option WinInfo :=
  match scanU a0 a1 a2 a3 a4 a5 a6 a7 a8 with
  | some w => some w
  | none =>
    if (decide (a0 ≠ none) && (decide (a1 ≠ none) && (decide (a2 ≠ none) && (decide (a3 ≠ none) && (decide (a4 ≠ none) && (decide (a5 ≠ none) && (decide (a6 ≠ none) && (decide (a7 ≠ none) && (decide (a8 ≠ none) && true))))))))) = true then some ⟨WinnerTag.draw, none⟩
    else none


/-- Spec §4.1: a triple "whose three cells are non-empty and identical". -/
def tripleWins (x y z : Player) : Bool :=
  x != none && x == y && x == z

/-- The symbol sitting in a (non-empty) cell; junk default for empty. -/
def cellSym (x : Player) : Symb :=
  match x with
  | some s => s
  | none => Symb.X

/-- Spec §4.1 `evaluate`, written from the spec's words: scan the 8 fixed
triples in order, return the first matching triple's symbol and indices;
if none matches and all 9 cells are filled, Draw; otherwise none. -/
def evaluateSpec (a0 a1 a2 a3 a4 a5 a6 a7 a8 : Player) : Option WinInfo :=
  if tripleWins a0 a1 a2 = true then some ⟨WinnerTag.sym (cellSym a0), some [0, 1, 2]⟩
  else if tripleWins a3 a4 a5 = true then some ⟨WinnerTag.sym (cellSym a3), some [3, 4, 5]⟩
  else if tripleWins a6 a7 a8 = true then some ⟨WinnerTag.sym (cellSym a6), some [6, 7, 8]⟩
  else if tripleWins a0 a3 a6 = true then some ⟨WinnerTag.sym (cellSym a0), some [0, 3, 6]⟩
  else if tripleWins a1 a4 a7 = true then some ⟨WinnerTag.sym (cellSym a1), some [1, 4, 7]⟩
  else if tripleWins a2 a5 a8 = true then some ⟨WinnerTag.sym (cellSym a2), some [2, 5, 8]⟩
  else if tripleWins a0 a4 a8 = true then some ⟨WinnerTag.sym (cellSym a0), some [0, 4, 8]⟩
  else if tripleWins a2 a4 a6 = true then some ⟨WinnerTag.sym (cellSym a2), some [2, 4, 6]⟩
  else if (a0 != none && a1 != none && a2 != none && a3 != none && a4 != none && a5 != none && a6 != none && a7 != none && a8 != none) = true then some ⟨WinnerTag.draw, none⟩
  else none


theorem findRoom_setRoom_self (rooms : List (RoomCode × Room)) (code : RoomCode) (room : Room) :
    findRoom (setRoom rooms code room) code = some room := by
  induction rooms with
  | nil => simp [setRoom, findRoom]
  | cons hd tl ih =>
    by_cases h : hd.1 = code
    · simp [setRoom, h, findRoom]
    · simp [setRoom, h, findRoom, ih]

theorem mem_joinSub_self (subs : List (SocketId × RoomCode)) (s : SocketId) (code : RoomCode) :
    (s, code) ∈ joinSub subs s code := by
  unfold joinSub
  by_cases h : (s, code) ∈ subs
  · simp [h]
  · simp [h]

theorem mem_joinSub_of_mem (subs : List (SocketId × RoomCode)) (p : SocketId × RoomCode)
    (s : SocketId) (code : RoomCode) (h : p ∈ subs) : p ∈ joinSub subs s code := by
  unfold joinSub
  by_cases hm : (s, code) ∈ subs
  · simpa [hm]
  · simp [hm, h]

theorem mem_subscribers (subs : List (SocketId × RoomCode)) (s : SocketId) (code : RoomCode)
    (h : (s, code) ∈ subs) : s ∈ subscribers subs code := by
  unfold subscribers
  exact List.mem_map_of_mem _ (List.mem_filter.mpr ⟨h, by simp⟩)

/-- No handler ever removes a socket from a broadcast group. -/
theorem subs_monotone (st : ServerState) (m : ClientMsg) (p : SocketId × RoomCode)
    (h : p ∈ st.subs) : p ∈ (handleMsg st m).1.subs := by
  cases m with
  | join_room sender code =>
    simp only [handleMsg]
    cases hf : findRoom st.rooms code with
    | none => simpa [hf] using mem_joinSub_of_mem _ _ sender code h
    | some room =>
      by_cases hl : room.players.length < 2
      · simpa [hf, hl] using mem_joinSub_of_mem _ _ sender code h
      · simpa [hf, hl] using mem_joinSub_of_mem _ _ sender code h
  | make_move sender code index symbol =>
    simp only [handleMsg]
    cases hf : findRoom st.rooms code with
    | none => simpa [hf] using h
    | some room =>
      by_cases hacc : moveAccepted room index symbol
      · simpa [hf, hacc] using h
      · simpa [hf, hacc] using h
  | reset_game sender code =>
    simp only [handleMsg]
    cases hf : findRoom st.rooms code with
    | none => simpa [hf] using h
    | some room => simpa [hf] using h

/-! ## Claim theorems -/

/-- C1: a `make_move` is accepted iff the room exists, the target cell is
empty, and the room's turn equals the claimed symbol; acceptance and the
entire handler result are independent of the sending connection; on
acceptance the symbol is written into the cell, the turn flips, and the
updated board and turn are broadcast to the room; on rejection nothing is
emitted and the state is completely unchanged. -/
theorem claim_C1_make_move (st : ServerState) (s1 s2 : SocketId) (code : RoomCode)
    (index : Int) (symbol : Symb) :
    handleMsg st (ClientMsg.make_move s1 code index symbol) =
      handleMsg st (ClientMsg.make_move s2 code index symbol)
    ∧ (∀ room, findRoom st.rooms code = some room →
        (moveAccepted room index symbol →
          handleMsg st (ClientMsg.make_move s1 code index symbol) =
            (⟨setRoom st.rooms code
                ⟨room.players, room.board.set index.toNat (some symbol),
                 if symbol = Symb.X then Symb.O else Symb.X⟩, st.subs⟩,
             [⟨EmitChannel.room code, subscribers st.subs code,
               Payload.move_made (room.board.set index.toNat (some symbol))
                 (if symbol = Symb.X then Symb.O else Symb.X)⟩]))
        ∧ (¬ moveAccepted room index symbol →
          handleMsg st (ClientMsg.make_move s1 code index symbol) = (st, [])))
    ∧ (findRoom st.rooms code = none →
        handleMsg st (ClientMsg.make_move s1 code index symbol) = (st, [])) := by
  refine ⟨rfl, ?_, ?_⟩
  · intro room hf
    constructor
    · intro hacc
      simp [handleMsg, hf, hacc]
    · intro hacc
      simp [handleMsg, hf, hacc]
  · intro hf
    simp [handleMsg, hf]

/-- Witness for C1 at a concrete accepting input: room `"A"` with players
`[1, 2]`, empty board, turn `X`; socket 7 claims `X` at cell 4. -/
theorem claim_C1_make_move_witness :
    handleMsg ⟨[("A", ⟨[1, 2], emptyBoard, Symb.X⟩)], [(1, "A"), (2, "A")]⟩
        (ClientMsg.make_move 7 "A" 4 Symb.X) =
      (⟨[("A", ⟨[1, 2], emptyBoard.set 4 (some Symb.X), Symb.O⟩)], [(1, "A"), (2, "A")]⟩,
       [⟨EmitChannel.room "A", [1, 2],
         Payload.move_made (emptyBoard.set 4 (some Symb.X)) Symb.O⟩]) := by
  have h := (claim_C1_make_move ⟨[("A", ⟨[1, 2], emptyBoard, Symb.X⟩)], [(1, "A"), (2, "A")]⟩
      7 8 "A" 4 Symb.X).2.1 ⟨[1, 2], emptyBoard, Symb.X⟩ (by decide) |>.1 (by decide)
  rw [h]
  decide

/-- C2 counterexample: a `make_move` between the two joins is accepted
(the server never checks the participant count), so the second join's
`game_ready` carries a non-empty board and turn `O`, not the all-empty
board and turn `X` the claim promises for every fresh room. -/
theorem claim_C2_counterexample :
    (execServer [ClientMsg.join_room 1 "A",
                 ClientMsg.make_move 1 "A" 0 Symb.X,
                 ClientMsg.join_room 2 "A"]).2.map Emit.payload =
      [Payload.player_assignment Symb.X,
       Payload.move_made (emptyBoard.set 0 (some Symb.X)) Symb.O,
       Payload.player_assignment Symb.O,
       Payload.game_ready (emptyBoard.set 0 (some Symb.X)) Symb.O]
    ∧ emptyBoard.set 0 (some Symb.X) ≠ emptyBoard ∧ Symb.O ≠ Symb.X := by
  refine ⟨by decide, by decide, by decide⟩

/-- C2 (amended): for a fresh room code the first join creates the room with
the joiner as sole participant and unicasts assignment `X` with no broadcast;
a join into a one-participant room appends the joiner, unicasts `O`, and
broadcasts `game_ready` carrying the room's *current* board and turn — which
are the all-empty board and turn `X` whenever the two joins are consecutive
(no accepted move or reset in between). -/
theorem claim_C2_join_sequence (st : ServerState) (s s2 : SocketId) (code : RoomCode)
    (hf : findRoom st.rooms code = none) :
    handleMsg st (ClientMsg.join_room s code) =
      (⟨setRoom st.rooms code ⟨[s], emptyBoard, Symb.X⟩, joinSub st.subs s code⟩,
       [⟨EmitChannel.direct s, [s], Payload.player_assignment Symb.X⟩])
    ∧ (∀ st' room, findRoom st'.rooms code = some room → room.players.length = 1 →
        handleMsg st' (ClientMsg.join_room s2 code) =
          (⟨setRoom st'.rooms code ⟨room.players ++ [s2], room.board, room.turn⟩,
            joinSub st'.subs s2 code⟩,
           [⟨EmitChannel.direct s2, [s2], Payload.player_assignment Symb.O⟩,
            ⟨EmitChannel.room code, subscribers (joinSub st'.subs s2 code) code,
             Payload.game_ready room.board room.turn⟩]))
    ∧ (runFrom st [ClientMsg.join_room s code, ClientMsg.join_room s2 code]).2 =
        [⟨EmitChannel.direct s, [s], Payload.player_assignment Symb.X⟩,
         ⟨EmitChannel.direct s2, [s2], Payload.player_assignment Symb.O⟩,
         ⟨EmitChannel.room code,
          subscribers (joinSub (joinSub st.subs s code) s2 code) code,
          Payload.game_ready emptyBoard Symb.X⟩] := by
  refine ⟨by simp [handleMsg, hf, emptyBoard], ?_, ?_⟩
  · intro st' room hf' hlen
    have hlt : room.players.length < 2 := by omega
    simp [handleMsg, hf', hlt]
  · simp [runFrom, handleMsg, hf, findRoom_setRoom_self, emptyBoard]

/-- Witness for C2 at a concrete fresh room: empty server, sockets 1 then 2
join room `"A"`. -/
theorem claim_C2_join_sequence_witness :
    (runFrom initialState [ClientMsg.join_room 1 "A", ClientMsg.join_room 2 "A"]).2 =
      [⟨EmitChannel.direct 1, [1], Payload.player_assignment Symb.X⟩,
       ⟨EmitChannel.direct 2, [2], Payload.player_assignment Symb.O⟩,
       ⟨EmitChannel.room "A",
        subscribers (joinSub (joinSub initialState.subs 1 "A") 2 "A") "A",
        Payload.game_ready emptyBoard Symb.X⟩] :=
  (claim_C2_join_sequence initialState 1 2 "A" (by decide)).2.2

/-- C3: a third join into a room that already has two participants yields
exactly one message — the `"Room is full"` error, sent to the joiner only —
and leaves the room registry (participants, board, turn) untouched. -/
theorem claim_C3_room_full (st : ServerState) (s : SocketId) (code : RoomCode) (room : Room)
    (hf : findRoom st.rooms code = some room) (hlen : room.players.length = 2) :
    handleMsg st (ClientMsg.join_room s code) =
      (⟨st.rooms, joinSub st.subs s code⟩,
       [⟨EmitChannel.direct s, [s], Payload.error_msg "Room is full"⟩]) := by
  have hlt : ¬ room.players.length < 2 := by omega
  simp [handleMsg, hf, hlt]

/-- Witness for C3: socket 3 joins the full room `"A"` (players 1 and 2). -/
theorem claim_C3_room_full_witness :
    handleMsg ⟨[("A", ⟨[1, 2], emptyBoard, Symb.X⟩)], [(1, "A"), (2, "A")]⟩
        (ClientMsg.join_room 3 "A") =
      (⟨[("A", ⟨[1, 2], emptyBoard, Symb.X⟩)],
        joinSub [(1, "A"), (2, "A")] 3 "A"⟩,
       [⟨EmitChannel.direct 3, [3], Payload.error_msg "Room is full"⟩]) :=
  claim_C3_room_full ⟨[("A", ⟨[1, 2], emptyBoard, Symb.X⟩)], [(1, "A"), (2, "A")]⟩
    3 "A" ⟨[1, 2], emptyBoard, Symb.X⟩ (by decide) (by decide)

/-- C4: in every reachable server state each room's turn marker is `X` or
`O`; an accepted move flips it (`X`→`O`, `O`→`X`); and a reset of an
existing room reinstalls the all-empty board with turn `X` and broadcasts
it. -/
theorem claim_C4_turn_invariant :
    (∀ msgs code room, findRoom (execServer msgs).1.rooms code = some room →
       room.turn = Symb.X ∨ room.turn = Symb.O)
    ∧ (∀ st s code index symbol room, findRoom st.rooms code = some room →
        moveAccepted room index symbol →
        ∃ room',
          findRoom (handleMsg st (ClientMsg.make_move s code index symbol)).1.rooms code
              = some room'
          ∧ room'.turn = (if room.turn = Symb.X then Symb.O else Symb.X))
    ∧ (∀ st s code room, findRoom st.rooms code = some room →
        handleMsg st (ClientMsg.reset_game s code) =
          (⟨setRoom st.rooms code ⟨room.players, emptyBoard, Symb.X⟩, st.subs⟩,
           [⟨EmitChannel.room code, subscribers st.subs code,
             Payload.game_reset emptyBoard Symb.X⟩])) := by
  refine ⟨?_, ?_, ?_⟩
  · intro msgs code room _
    cases h : room.turn
    · exact Or.inl rfl
    · exact Or.inr rfl
  · intro st s code index symbol room hf hacc
    refine ⟨⟨room.players, room.board.set index.toNat (some symbol),
      if symbol = Symb.X then Symb.O else Symb.X⟩, ?_, ?_⟩
    · simp [handleMsg, hf, hacc, findRoom_setRoom_self]
    · rw [hacc.2]
  · intro st s code room hf
    simp [handleMsg, hf, emptyBoard]

/-- Witness for C4's move-flip and reset parts at a concrete room. -/
theorem claim_C4_turn_invariant_witness :
    (∃ room',
      findRoom (handleMsg ⟨[("A", ⟨[1, 2], emptyBoard, Symb.X⟩)], [(1, "A"), (2, "A")]⟩
          (ClientMsg.make_move 1 "A" 0 Symb.X)).1.rooms "A" = some room'
      ∧ room'.turn = (if Symb.X = Symb.X then Symb.O else Symb.X))
    ∧ handleMsg ⟨[("A", ⟨[1, 2], emptyBoard, Symb.O⟩)], [(1, "A"), (2, "A")]⟩
        (ClientMsg.reset_game 2 "A") =
      (⟨[("A", ⟨[1, 2], emptyBoard, Symb.X⟩)], [(1, "A"), (2, "A")]⟩,
       [⟨EmitChannel.room "A", [1, 2], Payload.game_reset emptyBoard Symb.X⟩]) := by
  constructor
  · exact (claim_C4_turn_invariant).2.1
      ⟨[("A", ⟨[1, 2], emptyBoard, Symb.X⟩)], [(1, "A"), (2, "A")]⟩ 1 "A" 0 Symb.X
      ⟨[1, 2], emptyBoard, Symb.X⟩ (by decide) (by decide)
  · have h := (claim_C4_turn_invariant).2.2
      ⟨[("A", ⟨[1, 2], emptyBoard, Symb.O⟩)], [(1, "A"), (2, "A")]⟩ 2 "A"
      ⟨[1, 2], emptyBoard, Symb.O⟩ (by decide)
    rw [h]
    decide

/-- C8 counterexample: a room with a single participant (fewer than two)
already accepts moves and resets — `make_move` and `reset_game` never
consult the participant count, so the claimed "only after Ready" gating
does not hold. -/
theorem claim_C8_counterexample :
    (execServer [ClientMsg.join_room 1 "A", ClientMsg.make_move 1 "A" 0 Symb.X]).1.rooms =
      [("A", ⟨[1], emptyBoard.set 0 (some Symb.X), Symb.O⟩)]
    ∧ (execServer [ClientMsg.join_room 1 "A", ClientMsg.make_move 1 "A" 0 Symb.X]).2.map
        Emit.payload =
      [Payload.player_assignment Symb.X,
       Payload.move_made (emptyBoard.set 0 (some Symb.X)) Symb.O]
    ∧ ([1] : List SocketId).length < 2
    ∧ (execServer [ClientMsg.join_room 1 "A", ClientMsg.reset_game 1 "A"]).2.map
        Emit.payload =
      [Payload.player_assignment Symb.X, Payload.game_reset emptyBoard Symb.X] := by
  refine ⟨by decide, by decide, by decide, by decide⟩

/-- C8 (amended): `make_move` and `reset_game` are guarded only by room
existence (plus cell emptiness and turn match for moves), never by the
participant count: even a room with fewer than two participants accepts a
valid move with full effect, and a reset takes effect on any existing
room. -/
theorem claim_C8_no_ready_gating (st : ServerState) (s : SocketId) (code : RoomCode)
    (index : Int) (symbol : Symb) (room : Room)
    (hf : findRoom st.rooms code = some room) (_hlen : room.players.length < 2)
    (hacc : moveAccepted room index symbol) :
    handleMsg st (ClientMsg.make_move s code index symbol) =
      (⟨setRoom st.rooms code
          ⟨room.players, room.board.set index.toNat (some symbol),
           if symbol = Symb.X then Symb.O else Symb.X⟩, st.subs⟩,
       [⟨EmitChannel.room code, subscribers st.subs code,
         Payload.move_made (room.board.set index.toNat (some symbol))
           (if symbol = Symb.X then Symb.O else Symb.X)⟩])
    ∧ handleMsg st (ClientMsg.reset_game s code) =
      (⟨setRoom st.rooms code ⟨room.players, emptyBoard, Symb.X⟩, st.subs⟩,
       [⟨EmitChannel.room code, subscribers st.subs code,
         Payload.game_reset emptyBoard Symb.X⟩]) := by
  constructor
  · simp [handleMsg, hf, hacc]
  · simp [handleMsg, hf, emptyBoard]

/-- Witness for C8 (amended): the one-participant room created by a single
join accepts `X`'s move at cell 0. -/
theorem claim_C8_no_ready_gating_witness :
    handleMsg ⟨[("A", ⟨[1], emptyBoard, Symb.X⟩)], [(1, "A")]⟩
        (ClientMsg.make_move 1 "A" 0 Symb.X) =
      (⟨[("A", ⟨[1], emptyBoard.set 0 (some Symb.X), Symb.O⟩)], [(1, "A")]⟩,
       [⟨EmitChannel.room "A", [1],
         Payload.move_made (emptyBoard.set 0 (some Symb.X)) Symb.O⟩]) := by
  have h := (claim_C8_no_ready_gating ⟨[("A", ⟨[1], emptyBoard, Symb.X⟩)], [(1, "A")]⟩
      1 "A" 0 Symb.X ⟨[1], emptyBoard, Symb.X⟩ (by decide) (by decide) (by decide)).1
  rw [h]
  decide

/-- Every broadcast to room `code` emitted in one step reaches any socket
already subscribed to `code` beforehand. -/
theorem emit_room_dest (st : ServerState) (m : ClientMsg) (s : SocketId) (code : RoomCode)
    (hs : (s, code) ∈ st.subs) :
    ∀ e ∈ (handleMsg st m).2, e.channel = EmitChannel.room code → s ∈ e.dest := by
  intro e he hc
  cases m with
  | join_room sender c =>
    revert he
    simp only [handleMsg]
    cases hfr : findRoom st.rooms c with
    | none =>
      simp only [hfr]
      intro he
      simp at he
      rw [he] at hc
      exact absurd hc (by simp)
    | some room =>
      by_cases hl : room.players.length < 2
      · simp only [hfr, if_pos hl]
        intro he
        simp at he
        rcases he with he | he
        · rw [he] at hc; exact absurd hc (by simp)
        · rw [he] at hc
          simp at hc
          subst hc
          rw [he]
          exact mem_subscribers _ _ _ (mem_joinSub_of_mem _ _ _ _ hs)
      · simp only [hfr, if_neg hl]
        intro he
        simp at he
        rw [he] at hc
        exact absurd hc (by simp)
  | make_move sender c index symbol =>
    revert he
    simp only [handleMsg]
    cases hfr : findRoom st.rooms c with
    | none => intro he; simp [hfr] at he
    | some room =>
      by_cases hacc : moveAccepted room index symbol
      · simp only [hfr, if_pos hacc]
        intro he
        simp at he
        rw [he] at hc
        simp at hc
        subst hc
        rw [he]
        exact mem_subscribers _ _ _ hs
      · intro he; simp [hfr, hacc] at he
  | reset_game sender c =>
    revert he
    simp only [handleMsg]
    cases hfr : findRoom st.rooms c with
    | none => intro he; simp [hfr] at he
    | some room =>
      simp only [hfr]
      intro he
      simp at he
      rw [he] at hc
      simp at hc
      subst hc
      rw [he]
      exact mem_subscribers _ _ _ hs

/-- Once subscribed, a socket is a recipient of every later broadcast to
that room, whatever messages follow. -/
theorem runFrom_room_dest (ms : List ClientMsg) (st : ServerState) (s : SocketId)
    (code : RoomCode) (hs : (s, code) ∈ st.subs) :
    ∀ e ∈ (runFrom st ms).2, e.channel = EmitChannel.room code → s ∈ e.dest := by
  induction ms generalizing st with
  | nil => intro e he; simp [runFrom] at he
  | cons m rest ih =>
    intro e he hc
    simp only [runFrom] at he
    rw [List.mem_append] at he
    rcases he with he | he
    · exact emit_room_dest st m s code hs e he hc
    · exact ih (handleMsg st m).1 (subs_monotone st m _ hs) e he hc

/-- C9: a third joiner rejected with "Room is full" was nevertheless added
to the room's broadcast group first (`socket.join` precedes the capacity
check), the room record itself is untouched, and the rejected socket
receives every subsequent broadcast (`game_ready`, `move_made`,
`game_reset`) addressed to that room. -/
theorem claim_C9_rejected_joiner_subscribed (st : ServerState) (s : SocketId)
    (code : RoomCode) (room : Room)
    (hf : findRoom st.rooms code = some room) (hfull : ¬ room.players.length < 2) :
    (s, code) ∈ (handleMsg st (ClientMsg.join_room s code)).1.subs
    ∧ (handleMsg st (ClientMsg.join_room s code)).2 =
        [⟨EmitChannel.direct s, [s], Payload.error_msg "Room is full"⟩]
    ∧ (handleMsg st (ClientMsg.join_room s code)).1.rooms = st.rooms
    ∧ ∀ ms e, e ∈ (runFrom (handleMsg st (ClientMsg.join_room s code)).1 ms).2 →
        e.channel = EmitChannel.room code → s ∈ e.dest := by
  have hstep : handleMsg st (ClientMsg.join_room s code) =
      (⟨st.rooms, joinSub st.subs s code⟩,
       [⟨EmitChannel.direct s, [s], Payload.error_msg "Room is full"⟩]) := by
    simp [handleMsg, hf, hfull]
  refine ⟨?_, by rw [hstep], by rw [hstep], ?_⟩
  · rw [hstep]
    exact mem_joinSub_self _ _ _
  · intro ms e he hc
    refine runFrom_room_dest ms _ s code ?_ e he hc
    rw [hstep]
    exact mem_joinSub_self _ _ _

/-- Witness for C9: socket 3 is rejected from the full room `"A"` yet is a
recipient of the `move_made` broadcast of the following accepted move. -/
theorem claim_C9_rejected_joiner_subscribed_witness :
    (runFrom (handleMsg ⟨[("A", ⟨[1, 2], emptyBoard, Symb.X⟩)], [(1, "A"), (2, "A")]⟩
          (ClientMsg.join_room 3 "A")).1
        [ClientMsg.make_move 1 "A" 0 Symb.X]).2 =
      [⟨EmitChannel.room "A", [3, 1, 2],
        Payload.move_made (emptyBoard.set 0 (some Symb.X)) Symb.O⟩]
    ∧ 3 ∈ [3, 1, 2] :=
  ⟨by decide,
   (claim_C9_rejected_joiner_subscribed
      ⟨[("A", ⟨[1, 2], emptyBoard, Symb.X⟩)], [(1, "A"), (2, "A")]⟩ 3 "A"
      ⟨[1, 2], emptyBoard, Symb.X⟩ (by decide) (by decide)).2.2.2
    [ClientMsg.make_move 1 "A" 0 Symb.X]
    ⟨EmitChannel.room "A", [3, 1, 2],
     Payload.move_made (emptyBoard.set 0 (some Symb.X)) Symb.O⟩
    (by decide) rfl⟩

/-- `findRoom` after `setRoom`: the updated binding at `code`, all other
codes unchanged. -/
theorem findRoom_setRoom (rooms : List (RoomCode × Room)) (code c : RoomCode) (room : Room) :
    findRoom (setRoom rooms code room) c =
      if code = c then some room else findRoom rooms c := by
  induction rooms with
  | nil =>
    by_cases h : code = c
    · simp [setRoom, findRoom, h]
    · simp [setRoom, findRoom, h]
  | cons hd tl ih =>
    obtain ⟨c0, r0⟩ := hd
    by_cases h1 : c0 = code
    · subst h1
      by_cases h2 : c0 = c
      · simp [setRoom, findRoom, h2]
      · simp [setRoom, findRoom, h2]
    · by_cases h2 : code = c
      · subst h2
        simp [setRoom, findRoom, h1, ih]
      · simp [setRoom, findRoom, h1, h2, ih]

/-- One handler step preserves "every room's board has 9 cells". -/
theorem handleMsg_board_length (st : ServerState) (m : ClientMsg)
    (hinv : ∀ code room, findRoom st.rooms code = some room → room.board.length = 9) :
    ∀ code room, findRoom (handleMsg st m).1.rooms code = some room →
      room.board.length = 9 := by
  intro code room hfind
  cases m with
  | join_room sender c =>
    revert hfind
    simp only [handleMsg]
    cases hfr : findRoom st.rooms c with
    | none =>
      simp only [hfr]
      intro hfind
      rw [findRoom_setRoom] at hfind
      by_cases hc : c = code
      · simp [hc] at hfind
        rw [← hfind]
        simp
      · simp [hc] at hfind
        exact hinv code room hfind
    | some r0 =>
      by_cases hl : r0.players.length < 2
      · simp only [hfr, if_pos hl]
        intro hfind
        rw [findRoom_setRoom] at hfind
        by_cases hc : c = code
        · simp [hc] at hfind
          rw [← hfind]
          exact hinv c r0 hfr
        · simp [hc] at hfind
          exact hinv code room hfind
      · simp only [hfr, if_neg hl]
        intro hfind
        exact hinv code room hfind
  | make_move sender c index symbol =>
    revert hfind
    simp only [handleMsg]
    cases hfr : findRoom st.rooms c with
    | none =>
      simp only [hfr]
      intro hfind
      exact hinv code room hfind
    | some r0 =>
      by_cases hacc : moveAccepted r0 index symbol
      · simp only [hfr, if_pos hacc]
        intro hfind
        rw [findRoom_setRoom] at hfind
        by_cases hc : c = code
        · simp [hc] at hfind
          rw [← hfind]
          simp [List.length_set]
          exact hinv c r0 hfr
        · simp [hc] at hfind
          exact hinv code room hfind
      · simp only [hfr, if_neg hacc]
        intro hfind
        exact hinv code room hfind
  | reset_game sender c =>
    revert hfind
    simp only [handleMsg]
    cases hfr : findRoom st.rooms c with
    | none =>
      simp only [hfr]
      intro hfind
      exact hinv code room hfind
    | some r0 =>
      simp only [hfr]
      intro hfind
      rw [findRoom_setRoom] at hfind
      by_cases hc : c = code
      · simp [hc] at hfind
        rw [← hfind]
        simp
      · simp [hc] at hfind
        exact hinv code room hfind

/-- In every reachable server state every room's board has exactly 9 cells. -/
theorem exec_board_length (msgs : List ClientMsg) :
    ∀ code room, findRoom (execServer msgs).1.rooms code = some room →
      room.board.length = 9 := by
  suffices h : ∀ (ms : List ClientMsg) (st : ServerState),
      (∀ code room, findRoom st.rooms code = some room → room.board.length = 9) →
      ∀ code room, findRoom (runFrom st ms).1.rooms code = some room →
        room.board.length = 9 by
    exact h msgs initialState (by intro code room hf; simp [initialState, findRoom] at hf)
  intro ms
  induction ms with
  | nil => intro st hinv; simpa [runFrom] using hinv
  | cons m rest ih =>
    intro st hinv code room hfind
    exact ih (handleMsg st m).1 (handleMsg_board_length st m hinv) code room hfind

/-- C10: a `make_move` whose index is outside `0..8` is always rejected in
any reachable state: `board[index]` is `undefined` (not `null`), so the
occupancy check fails — no state change, nothing emitted. -/
theorem claim_C10_out_of_range (msgs : List ClientMsg) (s : SocketId) (code : RoomCode)
    (symbol : Symb) (index : Int) (hidx : index < 0 ∨ 8 < index) :
    handleMsg (execServer msgs).1 (ClientMsg.make_move s code index symbol) =
      ((execServer msgs).1, []) := by
  cases hfr : findRoom (execServer msgs).1.rooms code with
  | none => simp [handleMsg, hfr]
  | some room =>
    have hlen : room.board.length = 9 := exec_board_length msgs code room hfr
    have hrej : ¬ moveAccepted room index symbol := by
      intro hacc
      rcases hacc with ⟨hcell, _⟩
      unfold jsIndex at hcell
      cases index with
      | ofNat n =>
        simp only [Int.ofNat_eq_coe] at hidx
        have hcell' : room.board.get? n = some none := hcell
        have h9 : room.board.length ≤ n := by
          rcases hidx with hneg | hbig
          · omega
          · rw [hlen]; omega
        rw [List.get?_eq_none.mpr h9] at hcell'
        exact Option.noConfusion hcell'
      | negSucc n => exact Option.noConfusion hcell
    simp [handleMsg, hfr, hrej]

/-- Witness for C10: after one join creating room `"A"`, a move at index 9
(and one at `-1`) is dropped. -/
theorem claim_C10_out_of_range_witness :
    handleMsg (execServer [ClientMsg.join_room 1 "A"]).1
        (ClientMsg.make_move 1 "A" 9 Symb.X) =
      ((execServer [ClientMsg.join_room 1 "A"]).1, []) :=
  claim_C10_out_of_range [ClientMsg.join_room 1 "A"] 1 "A" Symb.X 9
    (Or.inr (by decide))

/-! ## Lemmas about the minimax search loops -/

theorem mem_cellIndices (i : Nat) : i ∈ cellIndices ↔ i < 9 := by
  simp [cellIndices]
  omega

theorem foldl_max_ge_init (squares : List Player) (g : Nat → Int) (l : List Nat) (init : Int) :
    init ≤ l.foldl (fun b i => if squares.get? i = some none then max (g i) b else b) init := by
  induction l generalizing init with
  | nil => exact le_refl _
  | cons i l ih =>
    refine le_trans ?_ (ih _)
    show init ≤ if squares.get? i = some none then max (g i) init else init
    by_cases h : squares.get? i = some none
    · rw [if_pos h]; exact le_max_right _ _
    · rw [if_neg h]

theorem foldl_max_ge_elem (squares : List Player) (g : Nat → Int) (l : List Nat) (j : Nat)
    (hj : j ∈ l) (hcell : squares.get? j = some none) (init : Int) :
    g j ≤ l.foldl (fun b i => if squares.get? i = some none then max (g i) b else b) init := by
  induction l generalizing init with
  | nil => cases hj
  | cons i l ih =>
    rcases List.mem_cons.mp hj with hji | hji
    · subst hji
      refine le_trans ?_ (foldl_max_ge_init squares g l _)
      show g j ≤ if squares.get? j = some none then max (g j) init else init
      rw [if_pos hcell]
      exact le_max_left _ _
    · exact ih hji _

theorem foldl_min_gt (squares : List Player) (g : Nat → Int) (l : List Nat) (c init : Int)
    (hinit : c < init)
    (hg : ∀ i ∈ l, squares.get? i = some none → c < g i) :
    c < l.foldl (fun b i => if squares.get? i = some none then min (g i) b else b) init := by
  induction l generalizing init with
  | nil => exact hinit
  | cons i l ih =>
    refine ih _ ?_ ?_
    · show c < if squares.get? i = some none then min (g i) init else init
      by_cases h : squares.get? i = some none
      · rw [if_pos h]
        exact lt_min (hg i (by simp) h) hinit
      · rw [if_neg h]
        exact hinit
    · intro i' hi' h'
      exact hg i' (List.mem_cons_of_mem _ hi') h'

/-- A board that `checkWinner` does not settle has an in-range empty cell. -/
theorem exists_empty_of_checkWinner_none (squares : List Player)
    (hlen : squares.length = 9) (hcw : checkWinner squares = none) :
    ∃ j : Nat, j < 9 ∧ squares.get? j = some none := by
  unfold checkWinner at hcw
  cases hsc : scanCombos squares WINNING_COMBINATIONS with
  | some w => rw [hsc] at hcw; exact Option.noConfusion hcw
  | none =>
    rw [hsc] at hcw
    by_cases hall : squares.all (fun s => s ≠ none) = true
    · rw [if_pos hall] at hcw; exact Option.noConfusion hcw
    · have : ∃ x ∈ squares, x = none := by
        by_contra hno
        push_neg at hno
        exact hall (List.all_eq_true.mpr (fun x hx => decide_eq_true (hno x hx)))
      rcases this with ⟨x, hx, hxe⟩
      subst hxe
      rcases List.get_of_mem hx with ⟨n, hn⟩
      refine ⟨n.val, by rw [← hlen]; exact n.isLt, ?_⟩
      rw [List.get?_eq_get n.isLt]
      simpa using hn

/-- Every `minimax` value on a 9-cell board at small depth stays strictly
above the `-Infinity` sentinel. -/
theorem minimax_gt_NEG_INF (fuel : Nat) :
    ∀ (squares : List Player) (depth : Int) (mx : Bool) (ai : Symb),
      squares.length = 9 → 0 ≤ depth → depth + (fuel : Int) ≤ 100 →
      NEG_INF < minimax fuel squares depth mx ai := by
  induction fuel with
  | zero =>
    intro squares depth mx ai hlen hd hdf
    rw [minimax]
    cases hcw : checkWinner squares with
    | some r =>
      simp only [hcw]
      split_ifs <;> simp [NEG_INF] <;> omega
    | none => simp [hcw, NEG_INF]
  | succ fuel ih =>
    intro squares depth mx ai hlen hd hdf
    rw [minimax]
    cases hcw : checkWinner squares with
    | some r =>
      simp only [hcw]
      split_ifs <;> simp [NEG_INF] <;> omega
    | none =>
      simp only [hcw]
      rcases exists_empty_of_checkWinner_none squares hlen hcw with ⟨j, hj9, hjcell⟩
      cases mx with
      | true =>
        simp only [if_pos]
        calc NEG_INF
            < minimax fuel (squares.set j (some ai)) (depth + 1) false ai := by
              refine ih _ _ _ _ (by simp [hlen]) (by omega) (by push_cast at hdf ⊢; omega)
          _ ≤ _ := foldl_max_ge_elem squares
              (fun i => minimax fuel (squares.set i (some ai)) (depth + 1) false ai)
              cellIndices j ((mem_cellIndices j).mpr hj9) hjcell NEG_INF
      | false =>
        simp only [Bool.false_eq_true, if_neg, not_false_eq_true]
        refine foldl_min_gt squares _ cellIndices NEG_INF POS_INF (by simp [NEG_INF, POS_INF]) ?_
        intro i _ hi
        exact ih _ _ _ _ (by simp [hlen]) (by omega) (by push_cast at hdf ⊢; omega)

/-- The accumulator's best score never decreases along the `getBestMove`
loop. -/
theorem bestMove_fold_fst_mono (squares : List Player) (ai : Symb) (l : List Nat)
    (acc : Int × Int) :
    acc.1 ≤ (l.foldl
      (fun (acc : Int × Int) i =>
        if squares.get? i = some none then
          let score := minimax 9 (squares.set i (some ai)) 0 false ai
          if score > acc.1 then (score, (i : Int)) else acc
        else acc)
      acc).1 := by
  induction l generalizing acc with
  | nil => exact le_refl _
  | cons i l ih =>
    refine le_trans ?_ (ih _)
    show acc.1 ≤ (if squares.get? i = some none then
        let score := minimax 9 (squares.set i (some ai)) 0 false ai
        if score > acc.1 then (score, (i : Int)) else acc
      else acc).1
    by_cases h : squares.get? i = some none
    · rw [if_pos h]
      by_cases hgt : minimax 9 (squares.set i (some ai)) 0 false ai > acc.1
      · simpa [hgt] using le_of_lt hgt
      · simp [hgt]
    · rw [if_neg h]

/-- Invariant of the `getBestMove` loop: the accumulator is either still the
initial `(-Infinity, -1)` or holds a strictly better score together with an
in-range empty cell; once an empty cell has been scanned the initial state
is gone. -/
theorem bestMove_loop_invariant (squares : List Player) (ai : Symb)
    (hlen : squares.length = 9) :
    ∀ (l : List Nat) (acc : Int × Int),
      (∀ i ∈ l, i < 9) →
      ((acc.1 = NEG_INF ∧ acc.2 = -1) ∨
       (NEG_INF < acc.1 ∧ ∃ k : Nat, acc.2 = (k : Int) ∧ k < 9 ∧ squares.get? k = some none)) →
      (((l.foldl
          (fun (acc : Int × Int) i =>
            if squares.get? i = some none then
              let score := minimax 9 (squares.set i (some ai)) 0 false ai
              if score > acc.1 then (score, (i : Int)) else acc
            else acc)
          acc).1 = NEG_INF ∧ (l.foldl
          (fun (acc : Int × Int) i =>
            if squares.get? i = some none then
              let score := minimax 9 (squares.set i (some ai)) 0 false ai
              if score > acc.1 then (score, (i : Int)) else acc
            else acc)
          acc).2 = -1) ∨
       (NEG_INF < (l.foldl
          (fun (acc : Int × Int) i =>
            if squares.get? i = some none then
              let score := minimax 9 (squares.set i (some ai)) 0 false ai
              if score > acc.1 then (score, (i : Int)) else acc
            else acc)
          acc).1 ∧ ∃ k : Nat, (l.foldl
          (fun (acc : Int × Int) i =>
            if squares.get? i = some none then
              let score := minimax 9 (squares.set i (some ai)) 0 false ai
              if score > acc.1 then (score, (i : Int)) else acc
            else acc)
          acc).2 = (k : Int) ∧ k < 9 ∧ squares.get? k = some none))
      ∧ ((∃ j ∈ l, squares.get? j = some none) → NEG_INF < (l.foldl
          (fun (acc : Int × Int) i =>
            if squares.get? i = some none then
              let score := minimax 9 (squares.set i (some ai)) 0 false ai
              if score > acc.1 then (score, (i : Int)) else acc
            else acc)
          acc).1) := by
  intro l
  induction l with
  | nil =>
    intro acc _ hP
    exact ⟨hP, by rintro ⟨j, hj, _⟩; cases hj⟩
  | cons i l ih =>
    intro acc hl hP
    have hi9 : i < 9 := hl i (by simp)
    have hl' : ∀ i' ∈ l, i' < 9 := fun i' hi' => hl i' (List.mem_cons_of_mem _ hi')
    by_cases hcell : squares.get? i = some none
    · have hscore : NEG_INF < minimax 9 (squares.set i (some ai)) 0 false ai :=
        minimax_gt_NEG_INF 9 _ 0 false ai (by simp [hlen]) (by omega) (by norm_num)
      set acc' : Int × Int := if squares.get? i = some none then
          let score := minimax 9 (squares.set i (some ai)) 0 false ai
          if score > acc.1 then (score, (i : Int)) else acc
        else acc with hacc'
      have hP' : NEG_INF < acc'.1 ∧
          ∃ k : Nat, acc'.2 = (k : Int) ∧ k < 9 ∧ squares.get? k = some none := by
        rw [hacc', if_pos hcell]
        by_cases hgt : minimax 9 (squares.set i (some ai)) 0 false ai > acc.1
        · simp only [hgt, if_pos]
          exact ⟨hscore, i, rfl, hi9, hcell⟩
        · simp only [hgt, if_neg, not_false_eq_true]
          rcases hP with ⟨h1, _⟩ | ⟨h1, hk⟩
          · exact absurd (lt_of_lt_of_le hscore (not_lt.mp hgt)) (by rw [h1]; exact lt_irrefl _)
          · exact ⟨h1, hk⟩
      have hmain := ih acc' hl' (Or.inr hP')
      refine ⟨hmain.1, ?_⟩
      intro _
      calc NEG_INF < acc'.1 := hP'.1
        _ ≤ _ := bestMove_fold_fst_mono squares ai l acc'
    · have hstep : (if squares.get? i = some none then
          let score := minimax 9 (squares.set i (some ai)) 0 false ai
          if score > acc.1 then (score, (i : Int)) else acc
        else acc) = acc := if_neg hcell
      rw [List.foldl_cons, hstep]
      have hmain := ih acc hl' hP
      refine ⟨hmain.1, ?_⟩
      rintro ⟨j, hj, hjcell⟩
      rcases List.mem_cons.mp hj with hji | hji
      · exact absurd (hji ▸ hjcell) hcell
      · exact hmain.2 ⟨j, hji, hjcell⟩

/-- On every 9-cell board with an empty cell, `getBestMove` returns the
index of an empty cell. -/
theorem getBestMove_empty_cell (squares : List Player) (ai : Symb)
    (hlen : squares.length = 9) (hempty : none ∈ squares) :
    ∃ k : Nat, getBestMove squares ai = (k : Int) ∧ k < 9 ∧
      squares.get? k = some none := by
  have hex : ∃ j ∈ cellIndices, squares.get? j = some none := by
    rcases List.get_of_mem hempty with ⟨n, hn⟩
    refine ⟨n.val, (mem_cellIndices _).mpr (by rw [← hlen]; exact n.isLt), ?_⟩
    rw [List.get?_eq_get n.isLt]
    simpa using hn
  have hloop := bestMove_loop_invariant squares ai hlen cellIndices (NEG_INF, -1)
    (fun i hi => (mem_cellIndices i).mp hi) (Or.inl ⟨rfl, rfl⟩)
  have hpos := hloop.2 hex
  rcases hloop.1 with ⟨h1, _⟩ | ⟨_, k, hk2, hk9, hkcell⟩
  · rw [h1] at hpos
    exact absurd hpos (lt_irrefl _)
  · exact ⟨k, hk2, hk9, hkcell⟩

/-- C7: on every 9-cell board that still has an empty cell, `getBestMove`
returns the index of an empty cell — never an occupied one and never `-1`. -/
theorem claim_C7_getBestMove_empty (squares : List Player) (ai : Symb)
    (hlen : squares.length = 9) (hempty : none ∈ squares) :
    ∃ k : Nat, getBestMove squares ai = (k : Int) ∧ k < 9 ∧
      squares.get? k = some none :=
  getBestMove_empty_cell squares ai hlen hempty

/-- Witness for C7: the empty board. -/
theorem claim_C7_getBestMove_empty_witness :
    ∃ k : Nat, getBestMove emptyBoard Symb.X = (k : Int) ∧ k < 9 ∧
      emptyBoard.get? k = some none :=
  claim_C7_getBestMove_empty emptyBoard Symb.X (by decide) (by simp [emptyBoard])

theorem checkWinner_eq_U (a0 a1 a2 a3 a4 a5 a6 a7 a8 : Player) :
    checkWinner [a0, a1, a2, a3, a4, a5, a6, a7, a8] = checkWinnerU a0 a1 a2 a3 a4 a5 a6 a7 a8 := by
  have e0 : comboWinner [a0, a1, a2, a3, a4, a5, a6, a7, a8] [0, 1, 2] = comboU a0 a1 a2 := by
    cases a0 <;> rfl
  have e1 : comboWinner [a0, a1, a2, a3, a4, a5, a6, a7, a8] [3, 4, 5] = comboU a3 a4 a5 := by
    cases a3 <;> rfl
  have e2 : comboWinner [a0, a1, a2, a3, a4, a5, a6, a7, a8] [6, 7, 8] = comboU a6 a7 a8 := by
    cases a6 <;> rfl
  have e3 : comboWinner [a0, a1, a2, a3, a4, a5, a6, a7, a8] [0, 3, 6] = comboU a0 a3 a6 := by
    cases a0 <;> rfl
  have e4 : comboWinner [a0, a1, a2, a3, a4, a5, a6, a7, a8] [1, 4, 7] = comboU a1 a4 a7 := by
    cases a1 <;> rfl
  have e5 : comboWinner [a0, a1, a2, a3, a4, a5, a6, a7, a8] [2, 5, 8] = comboU a2 a5 a8 := by
    cases a2 <;> rfl
  have e6 : comboWinner [a0, a1, a2, a3, a4, a5, a6, a7, a8] [0, 4, 8] = comboU a0 a4 a8 := by
    cases a0 <;> rfl
  have e7 : comboWinner [a0, a1, a2, a3, a4, a5, a6, a7, a8] [2, 4, 6] = comboU a2 a4 a6 := by
    cases a2 <;> rfl
  simp only [checkWinner, WINNING_COMBINATIONS, scanCombos, e0, e1, e2, e3, e4, e5, e6, e7, checkWinnerU, scanU,
    List.all_cons, List.all_nil]

set_option maxHeartbeats 16000000 in
set_option maxRecDepth 20000 in
/-- The destructured `checkWinner` coincides with the spec's `evaluate` on
every board (2 · 3⁹ cases, checked exhaustively). -/
theorem checkWinnerU_eq_evaluateSpec :
    ∀ a0 a1 a2 a3 a4 a5 a6 a7 a8 : Player, checkWinnerU a0 a1 a2 a3 a4 a5 a6 a7 a8 = evaluateSpec a0 a1 a2 a3 a4 a5 a6 a7 a8 := by decide


/-- C5: on every 9-cell board, `checkWinner` behaves exactly as the spec
describes `evaluate`: it returns a winner precisely when one of the 8 fixed
triples has three non-empty identical cells — the first matching triple in
scan order, tagged with its symbol and its indices; it returns Draw iff no
triple matches and all 9 cells are filled; otherwise it returns none. -/
theorem claim_C5_checkWinner_spec (a0 a1 a2 a3 a4 a5 a6 a7 a8 : Player) :
    checkWinner [a0, a1, a2, a3, a4, a5, a6, a7, a8] = evaluateSpec a0 a1 a2 a3 a4 a5 a6 a7 a8 :=
  (checkWinner_eq_U a0 a1 a2 a3 a4 a5 a6 a7 a8).trans (checkWinnerU_eq_evaluateSpec a0 a1 a2 a3 a4 a5 a6 a7 a8)


